import Mathlib

/-!
Verification of the transactioncalc statement-aggregation pipeline
(`transaction_aggregator.py`), shallowly embedded in Lean.

The pipeline reads CSV statements (bank and Discover credit), converts each
row to a canonical transaction, filters by an inclusive date window,
translates raw categories through an alias table, merges everything into one
date-descending ledger and writes two CSV layouts.  Machine floats only ever
hold parsed decimal numerals here, so amounts are modelled as rationals;
fallible steps (dictionary lookups that may raise `KeyError`, `float`/
`strptime` parses that may raise `ValueError`) are modelled in `Option`,
where `none` means the run aborts with an uncaught exception.
-/

/-- Numeric value of a most-significant-first digit string
(junk on non-digit characters; always guarded by an all-digits check). -/
def natOfDigits (l : List Char) : Nat :=
  l.foldl (fun acc c => 10 * acc + (c.toNat - 48)) 0

/-- Split a character list on a separator character, keeping empty groups,
as Python `str.split` does. -/
def splitOnChar (sep : Char) : List Char → List (List Char)
  | [] => [[]]
  | a :: as =>
    match splitOnChar sep as with
    | [] => [[a]]
    | g :: gs => if a = sep then [] :: g :: gs else (a :: g) :: gs

/-- Value of an unsigned decimal numeral (digits, optionally one dot and more
digits), as accepted by Python `float` on the cell contents this program
feeds it.  `none` models a `ValueError`. -/
def parseUnsigned (l : List Char) : Option ℚ :=
  match l.dropWhile (fun c => c ≠ '.') with
  | [] =>
    if (l.takeWhile (fun c => c ≠ '.')).all Char.isDigit ∧
        l.takeWhile (fun c => c ≠ '.') ≠ [] then
      some (natOfDigits (l.takeWhile (fun c => c ≠ '.')) : ℚ)
    else none
  | _ :: frac =>
    if (l.takeWhile (fun c => c ≠ '.')).all Char.isDigit ∧
        frac.all Char.isDigit ∧
        (l.takeWhile (fun c => c ≠ '.') ≠ [] ∨ frac ≠ []) then
      some ((natOfDigits (l.takeWhile (fun c => c ≠ '.')) : ℚ) +
        (natOfDigits frac : ℚ) / 10 ^ frac.length)
    else none

/-- Model of Python `float()` on plain decimal numerals with an optional
leading minus sign, the only shapes this program ever passes it. -/
def parseFloat (s : String) : Option ℚ :=
  match s.data with
  | [] => none
  | c :: rest =>
    if c = '-' then (parseUnsigned rest).map (fun q => -q)
    else parseUnsigned (c :: rest)

/-- Model of `datetime.strptime(arg, '%m/%d/%Y')` (the module-level `date`
function): three slash-separated digit groups, month and day at most two
digits, year at most four.  The date is encoded as the natural number
`y*10000 + m*100 + d`, whose order agrees with `datetime` comparison
(lexicographic on year, month, day) for in-range fields.  Day-in-month
validation beyond `1..31` is abstracted away. -/
def parseDate (s : String) : Option Nat :=
  match splitOnChar '/' s.data with
  | [m, d, y] =>
    if m ≠ [] ∧ m.length ≤ 2 ∧ m.all Char.isDigit ∧
        d ≠ [] ∧ d.length ≤ 2 ∧ d.all Char.isDigit ∧
        y ≠ [] ∧ y.length ≤ 4 ∧ y.all Char.isDigit ∧
        1 ≤ natOfDigits m ∧ natOfDigits m ≤ 12 ∧
        1 ≤ natOfDigits d ∧ natOfDigits d ≤ 31 then
      some (natOfDigits y * 10000 + natOfDigits m * 100 + natOfDigits d)
    else none
  | _ => none

/-- `str.replace(',', '')` on the Discover `Amount` cell. -/
def stripCommas (s : String) : String :=
  String.mk (s.data.filter (fun c => c ≠ ','))

/-- A canonical transaction, the standardized entry shape
`{Date, Description, Amount, Category}` built by the converters.  The `Date`
cell stays a string in the program (it is re-parsed by `date()` at each
comparison), so it stays a string here. -/
structure Tx where
  date : String
  description : String
  amount : ℚ
  category : String
deriving DecidableEq

/-- A raw header-keyed record: one CSV data row zipped against the header.
Headers are assumed distinct, so association-list lookup models the dict. -/
abbrev RawRecord : Type := List (String × String)

/-- Dict subscript `entry[key]`: `none` models a `KeyError`. -/
def lookupField (r : RawRecord) (k : String) : Option String :=
  match r with
  | [] => none
  | p :: rest => if p.1 = k then some p.2 else lookupField rest k

/-- `__read_statement`, file contents given as rows of cells: the first row
is the header, every later row is zipped positionally against it by
`{keys[i]: entry[i] for i in range(len(entry))}`.  A row longer than the
header raises `IndexError` on `keys[i]` (`none`); a shorter row silently
yields a record keyed by its first `len(row)` headers.  An empty file
raises on `raw_statement[0]` (`none`). -/
def rowToRecord (keys row : List String) : Option RawRecord :=
  if row.length ≤ keys.length then some (keys.zip row) else none

def readRows (keys : List String) : List (List String) → Option (List RawRecord)
  | [] => some []
  | row :: rows => do
    let r ← rowToRecord keys row
    let rs ← readRows keys rows
    pure (r :: rs)

def readStatement (rows : List (List String)) : Option (List RawRecord) :=
  match rows with
  | [] => none
  | keys :: body => readRows keys body

/-- The amount cell of a bank row:
`entry.pop('Debit') if not entry['Debit'] == '' else '-' + entry.pop('Credit')`
(the branches are flipped here so the test reads `debit = ""`). -/
def bankAmountCell (r : RawRecord) (debit : String) : Option String :=
  if debit = "" then (lookupField r "Credit").map (fun credit => "-" ++ credit)
  else some debit

/-- One entry of `__convert_bank_statement`: deletes the four unused columns
(raising `KeyError` when absent), then builds the canonical entry.  The
amount cell is `Debit` when that cell is non-empty, otherwise `'-' +
Credit`, and is fed to `float`. -/
def convertBankEntry (r : RawRecord) : Option Tx := do
  let _ ← lookupField r "Account Number"
  let _ ← lookupField r "Check"
  let _ ← lookupField r "Status"
  let _ ← lookupField r "Balance"
  let debit ← lookupField r "Debit"
  let amtStr ← bankAmountCell r debit
  let dateStr ← lookupField r "Post Date"
  let descr ← lookupField r "Description"
  let amount ← parseFloat amtStr
  let cat ← lookupField r "Classification"
  pure { date := dateStr, description := descr, amount := amount, category := cat }

/-- One entry of `__convert_discover_statement`: drops `Post Date`, keeps the
signed `Amount` cell after removing thousands separators. -/
def convertDiscoverEntry (r : RawRecord) : Option Tx := do
  let _ ← lookupField r "Post Date"
  let dateStr ← lookupField r "Trans. Date"
  let descr ← lookupField r "Description"
  let amtStr ← lookupField r "Amount"
  let amount ← parseFloat (stripCommas amtStr)
  let cat ← lookupField r "Category"
  pure { date := dateStr, description := descr, amount := amount, category := cat }

/-- The per-entry date window test of `__filter_statements`:
`date(entry['Date']) >= start and date(entry['Date']) <= end`.
`none` models the `ValueError` raised by `strptime` on a bad date cell. -/
def inRange (startDate endDate : Nat) (t : Tx) : Option Bool :=
  (parseDate t.date).map (fun d => decide (startDate ≤ d ∧ d ≤ endDate))

/-- The inner list comprehension of `__filter_statements`: a new list of the
entries whose date lies in the window, dates parsed entry by entry. -/
def filterEntries (startDate endDate : Nat) : List Tx → Option (List Tx)
  | [] => some []
  | t :: ts => do
    let keep ← inRange startDate endDate t
    let rest ← filterEntries startDate endDate ts
    pure (if keep then t :: rest else rest)

/-- `__filter_statements`: the per-statement filter applied to every
statement. -/
def filterStatements (startDate endDate : Nat) (statements : List (List Tx)) :
    Option (List (List Tx)) :=
  statements.mapM (filterEntries startDate endDate)

/-- The alias table: the `Conversions` mapping of `categories.yaml` in file
(insertion) order — canonical category name paired with its alias list. -/
abbrev Table : Type := List (String × List String)

/-- The matching loop of `__translate_categories`: scan canonical categories
in enumeration order; the first whose name equals the raw string or whose
alias list contains it wins. -/
def lookupCategory (translations : Table) (raw : String) : Option String :=
  match translations with
  | [] => none
  | p :: rest =>
    if raw = p.1 ∨ raw ∈ p.2 then some p.1 else lookupCategory rest raw

/-- One entry of `__translate_categories`: rewrite the category on a match;
otherwise leave the entry unchanged and print a diagnostic (collected here as
a message list). -/
def translateEntry (translations : Table) (t : Tx) : Tx × List String :=
  match lookupCategory translations t.category with
  | some name => ({ t with category := name }, [])
  | none => (t, ["MESSAGE: " ++ t.category ++ " not found in database"])

def translateStatement (translations : Table) (ts : List Tx) : List Tx × List String :=
  (ts.map (fun t => (translateEntry translations t).1),
   ts.flatMap (fun t => (translateEntry translations t).2))

/-- `__translate_categories` over all statements of one group, also
returning the diagnostics printed along the way. -/
def translateCategories (translations : Table) (statements : List (List Tx)) :
    List (List Tx) × List String :=
  (statements.map (fun ts => (translateStatement translations ts).1),
   statements.flatMap (fun ts => (translateStatement translations ts).2))

/-- Stable descending insertion on date-keyed entries: a new element goes
after every element with a strictly larger key and before the rest, so
earlier input elements stay first among equal keys. -/
def insertDesc (a : Nat × Tx) : List (Nat × Tx) → List (Nat × Tx)
  | [] => [a]
  | y :: ys => if a.1 < y.1 then y :: insertDesc a ys else a :: y :: ys

/-- Stable descending sort by date key.  Python's `list.sort(reverse=True,
key=...)` is a stable descending sort; a stable sort's output is determined
by the key order alone, so this insertion sort computes the same list. -/
def sortDesc : List (Nat × Tx) → List (Nat × Tx)
  | [] => []
  | a :: l => insertDesc a (sortDesc l)

/-- Decorate every entry with its parsed date key, in list order, as
`sort(key=lambda entry: date(entry[0]))` evaluates the keys.  `none` models
the `ValueError` a bad date cell raises inside `sort`. -/
def keyEntries : List Tx → Option (List (Nat × Tx))
  | [] => some []
  | t :: ts => do
    let d ← parseDate t.date
    let rest ← keyEntries ts
    pure ((d, t) :: rest)

/-- The aggregation step of `write_to_csv`: concatenate the Discover
statements' entries, then the bank statements' entries (each group absent
when its argument was `None`), and sort the result by date, descending and
stable. -/
def aggregateEntries (discover bank : Option (List (List Tx))) : Option (List Tx) := do
  let all := (discover.getD []).flatten ++ (bank.getD []).flatten
  let keyed ← keyEntries all
  pure ((sortDesc keyed).map Prod.snd)

/-- The error line printed by `write_to_csv` on any exception. -/
def writeErrorMsg (file : String) : String :=
  "ERROR: could not write aggregated files to " ++ file ++ ".csv"

/-- `write_to_csv`: everything runs inside one `try`.  Aggregation itself can
raise (bad date cell during `sort`); each of the two file writes is an
external effect modelled by an `Except` outcome supplied by the caller (the
second is attempted only when the first succeeds).  Any exception is caught:
the function prints the error line and returns `False`; otherwise it returns
`True`.  Result: the returned flag paired with the printed error lines. -/
def writeToCsv (discover bank : Option (List (List Tx))) (file : String)
    (write1 write2 : Except String Unit) : Bool × List String :=
  match aggregateEntries discover bank with
  | none => (false, [writeErrorMsg file])
  | some _ =>
    match write1 with
    | Except.error _ => (false, [writeErrorMsg file])
    | Except.ok _ =>
      match write2 with
      | Except.error _ => (false, [writeErrorMsg file])
      | Except.ok _ => (true, [])

/-- Read one statement file's rows and convert every record with the
source-kind converter, as `__read_statement` does when a converter is
given. -/
def readAndConvert (isBank : Bool) (rows : List (List String)) : Option (List Tx) := do
  let recs ← readStatement rows
  recs.mapM (fun r => if isBank then convertBankEntry r else convertDiscoverEntry r)

/-- `__clean_statements` for one statement group, instrumented with the
number of times `categories.yaml` is opened: `None` input returns early with
no load; otherwise read-and-convert every file, filter by the date window,
then `__translate_categories`, which opens the database once per call.
The outer `Option` is abort-by-exception; the inner one is the `None`
pass-through. -/
def cleanStatements (startDate endDate : Nat) (translations : Table)
    (isBank : Bool) (raw : Option (List (List (List String)))) :
    Option (Option (List (List Tx) × List String) × Nat) :=
  match raw with
  | none => some (none, 0)
  | some files => do
    let statements ← files.mapM (readAndConvert isBank)
    let filtered ← filterStatements startDate endDate statements
    pure (some (translateCategories translations filtered), 1)

/-- Result of constructing the aggregator: the two processed groups with
their diagnostics, and how many times the category database was loaded. -/
structure InitResult where
  bank : Option (List (List Tx) × List String)
  discover : Option (List (List Tx) × List String)
  loads : Nat
deriving DecidableEq

/-- `TransactionAggregator.__init__`: clean the bank group, then the
Discover group, accumulating database loads. -/
def aggregatorInit (startDate endDate : Nat) (translations : Table)
    (bankRaw discoverRaw : Option (List (List (List String)))) :
    Option InitResult := do
  let (b, l1) ← cleanStatements startDate endDate translations true bankRaw
  let (d, l2) ← cleanStatements startDate endDate translations false discoverRaw
  pure { bank := b, discover := d, loads := l1 + l2 }

/-! ### Sample inputs used in witnesses and counterexamples -/

/-- A bank row whose `Debit` cell is empty and whose `Credit` cell holds 15. -/
def bankCreditRow : RawRecord :=
  [("Account Number", "1"), ("Post Date", "01/02/2024"), ("Check", ""),
   ("Description", "funds"), ("Debit", ""), ("Credit", "15"),
   ("Status", "X"), ("Balance", "10"), ("Classification", "Income")]

/-- A bank row whose `Debit` cell holds 42 and whose `Credit` cell is empty. -/
def bankDebitRow : RawRecord :=
  [("Account Number", "1"), ("Post Date", "01/02/2024"), ("Check", ""),
   ("Description", "coffee"), ("Debit", "42"), ("Credit", ""),
   ("Status", "X"), ("Balance", "10"), ("Classification", "Dining")]

/-- The filter predicate `start ≤ date(entry) ≤ end` as a Bool, false left
unreachable when every date parses. -/
def dateInWindow (startDate endDate : Nat) (t : Tx) : Bool :=
  match parseDate t.date with
  | some d => decide (startDate ≤ d ∧ d ≤ endDate)
  | none => false

/-- Transactions on the window boundaries and one day outside each. -/
def windowSampleTxs : List Tx :=
  [{ date := "01/10/2024", description := "atStart", amount := 1, category := "X" },
   { date := "01/09/2024", description := "before", amount := 1, category := "X" },
   { date := "01/20/2024", description := "atEnd", amount := 1, category := "X" },
   { date := "01/21/2024", description := "after", amount := 1, category := "X" }]

/-- What the date filter keeps of `windowSampleTxs` on `[01/10, 01/20]`. -/
def windowSampleKept : List Tx :=
  [{ date := "01/10/2024", description := "atStart", amount := 1, category := "X" },
   { date := "01/20/2024", description := "atEnd", amount := 1, category := "X" }]

/-- A one-row bank statement file, as rows of cells. -/
def bankSampleFile : List (List String) :=
  [["Account Number", "Post Date", "Check", "Description", "Debit", "Credit",
    "Status", "Balance", "Classification"],
   ["123", "01/02/2024", "", "coffee", "4", "", "X", "100", "Dining"]]

/-- A one-row Discover statement file, as rows of cells. -/
def discoverSampleFile : List (List String) :=
  [["Trans. Date", "Post Date", "Description", "Amount", "Category"],
   ["01/03/2024", "01/04/2024", "book", "12", "Merchandise"]]

/-- A small alias table. -/
def sampleTable : Table := [("Food", ["Dining"])]

/-! ### Parsing lemmas -/

theorem parseUnsigned_cons_dash (rest : List Char) :
    parseUnsigned ('-' :: rest) = none := by
  have hdig : ('-').isDigit = false := rfl
  unfold parseUnsigned
  have h1 : ('-' :: rest).takeWhile (fun c => c ≠ '.') =
      '-' :: rest.takeWhile (fun c => c ≠ '.') := by
    simp [List.takeWhile_cons]
  have h2 : ('-' :: rest).dropWhile (fun c => c ≠ '.') =
      rest.dropWhile (fun c => c ≠ '.') := by
    simp [List.dropWhile_cons]
  rw [h1, h2]
  cases hdw : rest.dropWhile (fun c => c ≠ '.') with
  | nil => simp [hdig]
  | cons c frac => simp [hdig]

theorem parseUnsigned_empty : parseUnsigned [] = none := by decide

theorem parseUnsigned_nonneg (l : List Char) (q : ℚ)
    (h : parseUnsigned l = some q) : 0 ≤ q := by
  cases hdw : l.dropWhile (fun c => c ≠ '.') with
  | nil =>
    simp only [parseUnsigned, hdw] at h
    split_ifs at h with hcond
    injection h with h
    rw [← h]
    positivity
  | cons c frac =>
    simp only [parseUnsigned, hdw] at h
    split_ifs at h with hcond
    injection h with h
    rw [← h]
    positivity

theorem parseFloat_dash_append (s : String) (v : ℚ)
    (h : parseFloat ("-" ++ s) = some v) : parseFloat s = some (-v) := by
  have hdata : ("-" ++ s).data = '-' :: s.data := by
    rw [String.data_append]
    rfl
  simp only [parseFloat, hdata, if_pos] at h
  rw [Option.map_eq_some'] at h
  obtain ⟨a, ha, hav⟩ := h
  cases hd : s.data with
  | nil =>
    rw [hd] at ha
    rw [parseUnsigned_empty] at ha
    exact absurd ha (by simp)
  | cons c rest =>
    rw [hd] at ha
    by_cases hc : c = '-'
    · subst hc
      rw [parseUnsigned_cons_dash] at ha
      exact absurd ha (by simp)
    · simp only [parseFloat, hd, if_neg hc]
      rw [ha, ← hav, neg_neg]

/-- A successful `parseFloat` on a string not starting with a minus sign is
the (non-negative) unsigned value. -/
theorem parseFloat_nonneg (s : String) (q : ℚ)
    (hhead : s.data.head? ≠ some '-') (h : parseFloat s = some q) : 0 ≤ q := by
  cases hd : s.data with
  | nil =>
    simp only [parseFloat, hd] at h
    exact absurd h (by simp)
  | cons c rest =>
    rw [hd] at hhead
    have hc : c ≠ '-' := by
      intro hceq
      exact hhead (by rw [hceq]; rfl)
    simp only [parseFloat, hd, if_neg hc] at h
    exact parseUnsigned_nonneg _ _ h

/-! ### C1 -/

/-- C1: for every bank raw record the converter accepts, if the `Debit` cell
is non-empty the transaction's amount is the parsed decimal value of the
`Debit` cell, and otherwise it is the negation of the parsed decimal value
of the `Credit` cell. -/
theorem convertBank_amount_rule (r : RawRecord) (t : Tx) (debit : String)
    (h : convertBankEntry r = some t) (hd : lookupField r "Debit" = some debit) :
    (debit ≠ "" → parseFloat debit = some t.amount) ∧
    (debit = "" → ∀ credit, lookupField r "Credit" = some credit →
      ∃ q, parseFloat credit = some q ∧ t.amount = -q) := by
  simp only [convertBankEntry, bind, Option.bind_eq_some, Option.pure_def,
    Option.some.injEq] at h
  obtain ⟨a1, h1, a2, h2, a3, h3, a4, h4, db, hdb, amtStr, hamt, dateStr, hdate,
    descr, hdesc, amount, hamount, cat, hcat, ht⟩ := h
  rw [hd] at hdb
  injection hdb with hdb
  subst hdb
  have htamount : t.amount = amount := by rw [← ht]
  constructor
  · intro hne
    rw [bankAmountCell, if_neg hne] at hamt
    injection hamt with hamt
    subst hamt
    rw [htamount]
    exact hamount
  · intro heq credit hcred
    subst heq
    rw [bankAmountCell, if_pos rfl] at hamt
    rw [Option.map_eq_some'] at hamt
    obtain ⟨credit', hcred', hstr⟩ := hamt
    rw [hcred] at hcred'
    injection hcred' with hcred'
    subst hcred'
    subst hstr
    refine ⟨-amount, ?_, by rw [htamount, neg_neg]⟩
    exact parseFloat_dash_append _ _ hamount

/-- Witness for C1 at a concrete credit row: `Debit` empty, `Credit = 15`,
amount `-15`. -/
theorem convertBank_amount_rule_witness :
    ∃ t : Tx, convertBankEntry bankCreditRow = some t ∧
      (("" : String) = "" → ∀ credit, lookupField bankCreditRow "Credit" = some credit →
        ∃ q, parseFloat credit = some q ∧ t.amount = -q) := by
  refine ⟨{ date := "01/02/2024", description := "funds", amount := -15,
            category := "Income" }, by decide, ?_⟩
  exact (convertBank_amount_rule bankCreditRow _ "" (by decide) (by decide)).2

/-! ### C2 -/

/-- C2: when the date filter completes (every date cell parses), its output
is exactly the subsequence — `List.filter`, which keeps relative order — of
the input whose parsed date `d` satisfies `start ≤ d ∧ d ≤ end`, both bounds
inclusive; every retained transaction's date is inside the window and every
transaction of the input is retained if and only if its date is. -/
theorem filterEntries_window (startDate endDate : Nat) (ts out : List Tx)
    (h : filterEntries startDate endDate ts = some out) :
    out = ts.filter (dateInWindow startDate endDate) ∧
    (∀ t ∈ ts, ∃ d, parseDate t.date = some d ∧
      (t ∈ out ↔ startDate ≤ d ∧ d ≤ endDate)) := by
  have hmain : out = ts.filter (dateInWindow startDate endDate) ∧
      ∀ t ∈ ts, (parseDate t.date).isSome := by
    induction ts generalizing out with
    | nil =>
      simp only [filterEntries] at h
      injection h with h
      subst h
      exact ⟨rfl, by intro t ht; cases ht⟩
    | cons t ts ih =>
      simp only [filterEntries, bind, Option.bind_eq_some, Option.pure_def,
        Option.some.injEq] at h
      obtain ⟨keep, hkeep, rest, hrest, hout⟩ := h
      rw [inRange, Option.map_eq_some'] at hkeep
      obtain ⟨d, hd, hdk⟩ := hkeep
      obtain ⟨ihf, ihm⟩ := ih rest hrest
      have hwin : dateInWindow startDate endDate t = keep := by
        simp only [dateInWindow, hd]
        exact hdk
      constructor
      · rw [← hout, List.filter_cons, hwin, ihf]
      · intro u hu
        cases hu with
        | head => rw [hd]; rfl
        | tail _ hu => exact ihm u hu
  obtain ⟨hfil, hparse⟩ := hmain
  refine ⟨hfil, ?_⟩
  intro u hu
  obtain ⟨d, hd⟩ := Option.isSome_iff_exists.mp (hparse u hu)
  refine ⟨d, hd, ?_⟩
  rw [hfil, List.mem_filter]
  constructor
  · rintro ⟨-, hwindow⟩
    simp only [dateInWindow, hd] at hwindow
    exact of_decide_eq_true hwindow
  · intro hrange
    refine ⟨hu, ?_⟩
    simp only [dateInWindow, hd]
    exact decide_eq_true hrange

/-- Witness for C2: both boundary dates are kept, both outside dates are
dropped. -/
theorem filterEntries_window_witness :
    windowSampleKept = windowSampleTxs.filter (dateInWindow 20240110 20240120) ∧
    (∀ t ∈ windowSampleTxs, ∃ d, parseDate t.date = some d ∧
      (t ∈ windowSampleKept ↔ 20240110 ≤ d ∧ d ≤ 20240120)) :=
  filterEntries_window 20240110 20240120 windowSampleTxs windowSampleKept (by decide)

/-! ### C10 -/

/-- C10: category translation returns statements of the same shape (same
outer and inner lengths, same order, shown by the `Forall₂` pairings) in
which every transaction keeps its date, description and amount; only the
category may change. -/
theorem translate_preserves_frame (translations : Table)
    (statements : List (List Tx)) :
    List.Forall₂ (List.Forall₂ (fun a b =>
      b.date = a.date ∧ b.description = a.description ∧ b.amount = a.amount))
      statements (translateCategories translations statements).1 := by
  simp only [translateCategories]
  rw [List.forall₂_map_right_iff, List.forall₂_same]
  intro ts _
  simp only [translateStatement]
  rw [List.forall₂_map_right_iff, List.forall₂_same]
  intro t _
  cases hl : lookupCategory translations t.category with
  | some name => simp [translateEntry, hl]
  | none => simp [translateEntry, hl]

/-! ### C5 -/

/-- C5: a transaction whose raw category matches no canonical name and no
alias is passed through with its category unchanged, with one diagnostic
message naming the unmatched value; the translation is a total function (the
unmatched lookup never aborts the run), and wherever the transaction occurs
in a statement it stays in the output while the diagnostic is recorded. -/
theorem translate_unmatched_passthrough (translations : Table) (t : Tx)
    (h : lookupCategory translations t.category = none) :
    translateEntry translations t =
      (t, ["MESSAGE: " ++ t.category ++ " not found in database"]) ∧
    ∀ ts : List Tx, t ∈ ts →
      t ∈ (translateStatement translations ts).1 ∧
      ("MESSAGE: " ++ t.category ++ " not found in database")
        ∈ (translateStatement translations ts).2 := by
  have he : translateEntry translations t =
      (t, ["MESSAGE: " ++ t.category ++ " not found in database"]) := by
    simp only [translateEntry, h]
  refine ⟨he, ?_⟩
  intro ts hts
  constructor
  · simp only [translateStatement]
    exact List.mem_map.mpr ⟨t, hts, by rw [he]⟩
  · simp only [translateStatement]
    refine List.mem_flatMap.mpr ⟨t, hts, ?_⟩
    rw [he]
    exact List.mem_singleton_self _

/-- Witness for C5 at a concrete table and transaction: `"Zzz"` matches
nothing in `[("Food", ["Dining"])]`. -/
theorem translate_unmatched_passthrough_witness :
    translateEntry [("Food", ["Dining"])]
      { date := "01/02/2024", description := "x", amount := 1, category := "Zzz" } =
      ({ date := "01/02/2024", description := "x", amount := 1, category := "Zzz" },
       ["MESSAGE: " ++ "Zzz" ++ " not found in database"]) :=
  (translate_unmatched_passthrough [("Food", ["Dining"])]
    { date := "01/02/2024", description := "x", amount := 1, category := "Zzz" }
    (by decide)).1

/-! ### C4 -/

/-- C4 is false on the code: with the alias table enumerating `("B", ["A"])`
before `("A", [])`, a transaction whose raw category `"A"` equals canonical
name `"A"` exactly, and is also an alias of the different category `"B"`,
is rewritten to `"B"`: the alias match of the earlier category wins over
the exact-name match. -/
theorem translate_alias_precedence_counterexample :
    (translateEntry [("B", ["A"]), ("A", [])]
      { date := "01/02/2024", description := "x", amount := 1,
        category := "A" }).1.category = "B" ∧ ("B" : String) ≠ "A" := by decide

/-- The category loop returns the first canonical category, in enumeration
order, whose name or alias set matches. -/
theorem lookupCategory_first_match (pre post : Table) (name : String)
    (aliases : List String) (raw : String)
    (hpre : ∀ p ∈ pre, ¬(raw = p.1 ∨ raw ∈ p.2))
    (hmatch : raw = name ∨ raw ∈ aliases) :
    lookupCategory (pre ++ (name, aliases) :: post) raw = some name := by
  induction pre with
  | nil => simp only [List.nil_append, lookupCategory, if_pos hmatch]
  | cons p ps ih =>
    simp only [List.cons_append, lookupCategory]
    rw [if_neg (hpre p (List.mem_cons_self p ps))]
    exact ih (fun q hq => hpre q (List.mem_cons_of_mem p hq))

/-- A successful category lookup pinpoints the first matching table entry:
the table splits before the found name into entries none of which match. -/
theorem lookupCategory_first_match_inv (translations : Table)
    (raw name : String)
    (hl : lookupCategory translations raw = some name) :
    ∃ pre aliases post, translations = pre ++ (name, aliases) :: post ∧
      (raw = name ∨ raw ∈ aliases) ∧
      ∀ p ∈ pre, ¬(raw = p.1 ∨ raw ∈ p.2) := by
  induction translations with
  | nil => simp [lookupCategory] at hl
  | cons p rest ih =>
    rw [lookupCategory] at hl
    by_cases hmatch : raw = p.1 ∨ raw ∈ p.2
    · rw [if_pos hmatch] at hl
      injection hl with hl
      subst hl
      exact ⟨[], p.2, rest, rfl, hmatch, by intro q hq; cases hq⟩
    · rw [if_neg hmatch] at hl
      obtain ⟨pre, aliases, post, heq, hm, hpre⟩ := ih hl
      subst heq
      refine ⟨p :: pre, aliases, post, rfl, hm, ?_⟩
      intro q hq
      rcases List.mem_cons.mp hq with rfl | hq'
      · exact hmatch
      · exact hpre q hq'

/-- C4 amended: the category loop implements first-match-in-enumeration-order
semantics exactly.  The lookup resolves the raw string to canonical name
`name` precisely when the table splits as `pre ++ (name, aliases) :: post`
with the raw string equal to `name` or contained in `aliases`, and matching
no entry of `pre` (neither by name nor by alias); the transaction's category
is then rewritten to that first matching name.  In particular the exact-name
match wins exactly when no earlier canonical category also matches the
string, e.g. as an alias — not regardless of enumeration order. -/
theorem translate_first_match (translations : Table) (t : Tx) (name : String) :
    (lookupCategory translations t.category = some name ↔
      ∃ pre aliases post,
        translations = pre ++ (name, aliases) :: post ∧
        (t.category = name ∨ t.category ∈ aliases) ∧
        ∀ p ∈ pre, ¬(t.category = p.1 ∨ t.category ∈ p.2)) ∧
    (lookupCategory translations t.category = some name →
      (translateEntry translations t).1.category = name) := by
  refine ⟨⟨lookupCategory_first_match_inv translations t.category name, ?_⟩, ?_⟩
  · rintro ⟨pre, aliases, post, rfl, hm, hpre⟩
    exact lookupCategory_first_match pre post name aliases t.category hpre hm
  · intro hl
    simp only [translateEntry, hl]

/-- Witness for the amended C4 at concrete tables holding both an exact-name
entry for `"A"` and a different entry listing `"A"` as an alias: whichever
of the two comes first in enumeration order wins, so the alias-holding
category beats the later exact name, and the exact name wins when it comes
first. -/
theorem translate_first_match_witness :
    (translateEntry [("B", ["A"]), ("A", [])]
      { date := "01/02/2024", description := "x", amount := 1,
        category := "A" }).1.category = "B" ∧
    (translateEntry [("A", []), ("B", ["A"])]
      { date := "01/02/2024", description := "x", amount := 1,
        category := "A" }).1.category = "A" :=
  ⟨(translate_first_match [("B", ["A"]), ("A", [])]
      { date := "01/02/2024", description := "x", amount := 1,
        category := "A" } "B").2 (by decide),
   (translate_first_match [("A", []), ("B", ["A"])]
      { date := "01/02/2024", description := "x", amount := 1,
        category := "A" } "A").2 (by decide)⟩

/-! ### C7 -/

/-- C7 is false as stated: a data row with fewer cells than the header does
not fail; it silently produces a partial record (here `["x"]` against header
`["A", "B"]` yields the one-key record `[("A", "x")]`). -/
theorem readStatement_short_row_counterexample :
    readStatement [["A", "B"], ["x"]] = some [[("A", "x")]] ∧
    ([("x" : String)].length ≠ (["A", "B"] : List String).length) := by decide

/-- C7 amended: reading a statement fails (uncaught `IndexError`) exactly
when some data row has more cells than the header; otherwise every data row
— including rows with fewer cells — is zipped against the header into a
record. -/
theorem readStatement_cell_count (keys : List String)
    (body : List (List String)) :
    readStatement (keys :: body) =
      if ∀ row ∈ body, row.length ≤ keys.length then
        some (body.map (fun row => keys.zip row))
      else none := by
  simp only [readStatement]
  induction body with
  | nil => simp [readRows]
  | cons row rows ih =>
    by_cases hrow : row.length ≤ keys.length
    · simp only [readRows, rowToRecord, if_pos hrow, bind, Option.some_bind, ih]
      by_cases hrest : ∀ r ∈ rows, r.length ≤ keys.length
      · rw [if_pos hrest, if_pos]
        · simp
        · intro r hr
          rcases hr with _ | hr
          · exact hrow
          · exact hrest r (by assumption)
      · rw [if_neg hrest, if_neg]
        · simp
        · intro hall
          exact hrest (fun r hr => hall r (List.mem_cons_of_mem row hr))
    · simp only [readRows, rowToRecord, if_neg hrow, bind, Option.none_bind]
      rw [if_neg]
      intro hall
      exact hrow (hall row (List.mem_cons_self row rows))

/-! ### C6 -/

/-- The amount produced by the bank converter, by `Debit`-cell case: either
the parse of the non-empty `Debit` cell, or the parse of `'-' + Credit`. -/
theorem convertBankEntry_amountSpec (r : RawRecord) (t : Tx) (debit : String)
    (h : convertBankEntry r = some t)
    (hd : lookupField r "Debit" = some debit) :
    (debit ≠ "" → parseFloat debit = some t.amount) ∧
    (debit = "" → ∃ credit, lookupField r "Credit" = some credit ∧
      parseFloat ("-" ++ credit) = some t.amount) := by
  simp only [convertBankEntry, bind, Option.bind_eq_some, Option.pure_def,
    Option.some.injEq] at h
  obtain ⟨a1, h1, a2, h2, a3, h3, a4, h4, db, hdb, amtStr, hamt, dateStr, hdate,
    descr, hdesc, amount, hamount, cat, hcat, ht⟩ := h
  rw [hd] at hdb
  injection hdb with hdb
  subst hdb
  have htamount : t.amount = amount := by rw [← ht]
  constructor
  · intro hne
    rw [bankAmountCell, if_neg hne] at hamt
    injection hamt with hamt
    subst hamt
    rw [htamount]
    exact hamount
  · intro heq
    subst heq
    rw [bankAmountCell, if_pos rfl] at hamt
    rw [Option.map_eq_some'] at hamt
    obtain ⟨credit, hcred, hstr⟩ := hamt
    subst hstr
    rw [htamount]
    exact ⟨credit, hcred, hamount⟩

/-- A parse of `'-' + cell` can only produce a non-positive value. -/
theorem parseFloat_dash_nonpos (s : String) (v : ℚ)
    (h : parseFloat ("-" ++ s) = some v) : v ≤ 0 := by
  have hdata : ("-" ++ s).data = '-' :: s.data := by
    rw [String.data_append]
    rfl
  simp only [parseFloat, hdata, if_pos] at h
  rw [Option.map_eq_some'] at h
  obtain ⟨u, hu, huv⟩ := h
  have hnn := parseUnsigned_nonneg s.data u hu
  rw [← huv]
  linarith

/-- C6 is false on the code: a debit row — non-empty `Debit` cell, the
outflow direction — converts to the positive amount `42`, not a negative
one. -/
theorem convert_sign_counterexample :
    convertBankEntry bankDebitRow =
      some { date := "01/02/2024", description := "coffee", amount := 42,
             category := "Dining" } ∧ ¬((42 : ℚ) < 0) := by decide

/-- C6 amended: the sign convention is the opposite of the claim.  For the
bank converter, an (unsigned-numeral) debit row yields a non-negative
amount and a credit row a non-positive one: positive encodes outflow/debit,
negative encodes inflow/credit.  The Discover converter simply passes the
signed `Amount` cell through (after comma stripping), imposing no sign
convention of its own. -/
theorem convert_sign_convention :
    (∀ r t debit, convertBankEntry r = some t →
      lookupField r "Debit" = some debit →
      debit.data.head? ≠ some '-' →
      ((debit ≠ "" → 0 ≤ t.amount) ∧ (debit = "" → t.amount ≤ 0))) ∧
    (∀ r t amtStr, convertDiscoverEntry r = some t →
      lookupField r "Amount" = some amtStr →
      parseFloat (stripCommas amtStr) = some t.amount) := by
  constructor
  · intro r t debit h hd hhead
    obtain ⟨hdebit, hcredit⟩ := convertBankEntry_amountSpec r t debit h hd
    constructor
    · intro hne
      exact parseFloat_nonneg debit t.amount hhead (hdebit hne)
    · intro heq
      obtain ⟨credit, _, hcr⟩ := hcredit heq
      exact parseFloat_dash_nonpos credit t.amount hcr
  · intro r t amtStr h ha
    simp only [convertDiscoverEntry, bind, Option.bind_eq_some, Option.pure_def,
      Option.some.injEq] at h
    obtain ⟨a1, h1, dateStr, hdate, descr, hdesc, amt, hamt, amount, hamount,
      cat, hcat, ht⟩ := h
    rw [ha] at hamt
    injection hamt with hamt
    subst hamt
    rw [hamount, ← ht]

/-- Witness for the amended C6 at the concrete debit row with `Debit = 42`:
the resulting amount is non-negative. -/
theorem convert_sign_convention_witness :
    0 ≤ ({ date := "01/02/2024", description := "coffee", amount := 42,
           category := "Dining" } : Tx).amount :=
  (convert_sign_convention.1 bankDebitRow
    { date := "01/02/2024", description := "coffee", amount := 42,
      category := "Dining" } "42" (by decide) (by decide) (by decide)).1
    (by decide)

/-! ### C9 -/

/-- C9: the writer returns `True` exactly when aggregation succeeds and both
artifact writes succeed; any failure is caught (the function still returns,
with `False`) and is reported through the printed error line rather than
silently dropped. -/
theorem writeToCsv_outcome (discover bank : Option (List (List Tx)))
    (file : String) (write1 write2 : Except String Unit) :
    ((writeToCsv discover bank file write1 write2).1 = true ↔
      (aggregateEntries discover bank).isSome ∧
        write1 = Except.ok () ∧ write2 = Except.ok ()) ∧
    ((writeToCsv discover bank file write1 write2).1 = false →
      (writeToCsv discover bank file write1 write2).2 = [writeErrorMsg file]) := by
  cases hagg : aggregateEntries discover bank with
  | none => simp [writeToCsv, hagg]
  | some l =>
    cases write1 with
    | error e => simp [writeToCsv, hagg]
    | ok u =>
      cases u
      cases write2 with
      | error e => simp [writeToCsv, hagg]
      | ok u => cases u; simp [writeToCsv, hagg]

/-! ### C8 -/

/-- C8 is false on the code: a run given both statement groups loads the
category database twice — once per group's `__translate_categories` call —
not exactly once per run. -/
theorem alias_table_load_counterexample :
    (aggregatorInit 0 99999999 sampleTable (some [bankSampleFile])
      (some [discoverSampleFile])).map InitResult.loads = some 2 ∧
    (2 : Nat) ≠ 1 := by decide

/-- C8 amended: the alias table is re-read from `categories.yaml` by every
`__translate_categories` call rather than loaded once and passed along; a
completed construction loads it once per statement group present — so twice
when both groups are given — never per statement or per transaction. -/
theorem alias_table_loads_per_group (startDate endDate : Nat)
    (translations : Table)
    (bankRaw discoverRaw : Option (List (List (List String))))
    (res : InitResult)
    (h : aggregatorInit startDate endDate translations bankRaw discoverRaw =
      some res) :
    res.loads = (if bankRaw.isSome then 1 else 0) +
      (if discoverRaw.isSome then 1 else 0) := by
  simp only [aggregatorInit, bind, Option.bind_eq_some, Option.pure_def,
    Option.some.injEq] at h
  obtain ⟨⟨b, l1⟩, h1, ⟨d, l2⟩, h2, hres⟩ := h
  have hl1 : l1 = if bankRaw.isSome then 1 else 0 := by
    cases bankRaw with
    | none =>
      simp only [cleanStatements] at h1
      injection h1 with h1
      rw [← (Prod.mk.injEq _ _ _ _).mp h1 |>.2]
      rfl
    | some files =>
      simp only [cleanStatements, bind, Option.bind_eq_some, Option.pure_def,
        Option.some.injEq] at h1
      obtain ⟨stmts, hs, filtered, hf, hpair⟩ := h1
      rw [← (Prod.mk.injEq _ _ _ _).mp hpair |>.2]
      rfl
  have hl2 : l2 = if discoverRaw.isSome then 1 else 0 := by
    cases discoverRaw with
    | none =>
      simp only [cleanStatements] at h2
      injection h2 with h2
      rw [← (Prod.mk.injEq _ _ _ _).mp h2 |>.2]
      rfl
    | some files =>
      simp only [cleanStatements, bind, Option.bind_eq_some, Option.pure_def,
        Option.some.injEq] at h2
      obtain ⟨stmts, hs, filtered, hf, hpair⟩ := h2
      rw [← (Prod.mk.injEq _ _ _ _).mp hpair |>.2]
      rfl
  rw [← hres, hl1, hl2]

/-- Witness for the amended C8: the bank group alone present gives exactly
one load. -/
theorem alias_table_loads_per_group_witness :
    (⟨some ([[⟨"01/02/2024", "coffee", 4, "Food"⟩]], []), none, 1⟩ :
        InitResult).loads =
      (if (some [bankSampleFile]).isSome then 1 else 0) +
      (if (none : Option (List (List (List String)))).isSome then 1 else 0) :=
  alias_table_loads_per_group 0 99999999 sampleTable (some [bankSampleFile]) none
    ⟨some ([[⟨"01/02/2024", "coffee", 4, "Food"⟩]], []), none, 1⟩
    (by decide)

/-! ### C3 -/

theorem insertDesc_eq (a : Nat × Tx) (l : List (Nat × Tx)) :
    insertDesc a l = l.takeWhile (fun y => decide (a.1 < y.1)) ++
      a :: l.dropWhile (fun y => decide (a.1 < y.1)) := by
  induction l with
  | nil => rfl
  | cons y ys ih =>
    by_cases hy : a.1 < y.1
    · simp only [insertDesc, if_pos hy, List.takeWhile_cons, List.dropWhile_cons,
        decide_eq_true hy, ih]
      rfl
    · simp only [insertDesc, if_neg hy, List.takeWhile_cons, List.dropWhile_cons,
        decide_eq_false hy]
      rfl

theorem mem_insertDesc (a x : Nat × Tx) (l : List (Nat × Tx)) :
    x ∈ insertDesc a l ↔ x = a ∨ x ∈ l := by
  rw [insertDesc_eq, List.mem_append, List.mem_cons]
  constructor
  · rintro (hx | hx | hx)
    · exact Or.inr ((List.takeWhile_sublist _).subset hx)
    · exact Or.inl hx
    · exact Or.inr ((List.dropWhile_sublist _).subset hx)
  · rintro (rfl | hx)
    · exact Or.inr (Or.inl rfl)
    · rcases List.mem_append.mp
        (by rw [List.takeWhile_append_dropWhile]; exact hx :
          x ∈ l.takeWhile (fun y => decide (a.1 < y.1)) ++
            l.dropWhile (fun y => decide (a.1 < y.1))) with hx' | hx'
      · exact Or.inl hx'
      · exact Or.inr (Or.inr hx')

theorem sortDesc_perm (l : List (Nat × Tx)) : (sortDesc l).Perm l := by
  induction l with
  | nil => exact List.Perm.refl []
  | cons a l ih =>
    rw [sortDesc, insertDesc_eq]
    refine List.perm_middle.trans ?_
    rw [List.takeWhile_append_dropWhile]
    exact ih.cons a

theorem insertDesc_pairwise (a : Nat × Tx) (l : List (Nat × Tx))
    (h : l.Pairwise (fun x y => y.1 ≤ x.1)) :
    (insertDesc a l).Pairwise (fun x y => y.1 ≤ x.1) := by
  induction l with
  | nil => simp [insertDesc]
  | cons y ys ih =>
    rw [List.pairwise_cons] at h
    obtain ⟨hy, hys⟩ := h
    by_cases hlt : a.1 < y.1
    · rw [insertDesc, if_pos hlt, List.pairwise_cons]
      refine ⟨?_, ih hys⟩
      intro x hx
      rcases (mem_insertDesc a x ys).mp hx with rfl | hx'
      · exact le_of_lt hlt
      · exact hy x hx'
    · rw [insertDesc, if_neg hlt, List.pairwise_cons]
      have hya : y.1 ≤ a.1 := le_of_not_lt hlt
      refine ⟨?_, List.pairwise_cons.mpr ⟨hy, hys⟩⟩
      intro x hx
      rcases List.mem_cons.mp hx with rfl | hx'
      · exact hya
      · exact le_trans (hy x hx') hya

theorem sortDesc_sorted (l : List (Nat × Tx)) :
    (sortDesc l).Pairwise (fun x y => y.1 ≤ x.1) := by
  induction l with
  | nil => exact List.Pairwise.nil
  | cons a l ih => exact insertDesc_pairwise a (sortDesc l) ih

theorem filter_insertDesc (a : Nat × Tx) (l : List (Nat × Tx)) (d : Nat) :
    (insertDesc a l).filter (fun x => x.1 == d) =
      (a :: l).filter (fun x => x.1 == d) := by
  have hsplit : l.filter (fun x => x.1 == d) =
      (l.takeWhile (fun y => decide (a.1 < y.1))).filter (fun x => x.1 == d) ++
      (l.dropWhile (fun y => decide (a.1 < y.1))).filter (fun x => x.1 == d) := by
    rw [← List.filter_append, List.takeWhile_append_dropWhile]
  by_cases had : a.1 = d
  · have hpre : (l.takeWhile (fun y => decide (a.1 < y.1))).filter
        (fun x => x.1 == d) = [] := by
      rw [List.filter_eq_nil_iff]
      intro x hx
      have hx' := List.mem_takeWhile_imp hx
      have hlt : a.1 < x.1 := of_decide_eq_true hx'
      intro hbeq
      have hxd : x.1 = d := beq_iff_eq.mp hbeq
      omega
    rw [insertDesc_eq, List.filter_append, hpre, List.nil_append,
      List.filter_cons, List.filter_cons]
    have ha : (a.1 == d) = true := beq_iff_eq.mpr had
    rw [ha]
    simp only [if_pos]
    rw [hsplit, hpre, List.nil_append]
  · have ha : (a.1 == d) = false := by
      rw [beq_eq_false_iff_ne]
      exact had
    rw [insertDesc_eq, List.filter_append, List.filter_cons, List.filter_cons, ha]
    simp only [Bool.false_eq_true, if_false]
    rw [hsplit]

theorem sortDesc_stable (l : List (Nat × Tx)) (d : Nat) :
    (sortDesc l).filter (fun x => x.1 == d) = l.filter (fun x => x.1 == d) := by
  induction l with
  | nil => rfl
  | cons a l ih =>
    rw [sortDesc, filter_insertDesc, List.filter_cons, List.filter_cons, ih]

theorem keyEntries_spec (l : List Tx) (keyed : List (Nat × Tx))
    (h : keyEntries l = some keyed) :
    keyed.map Prod.snd = l ∧ ∀ x ∈ keyed, parseDate x.2.date = some x.1 := by
  induction l generalizing keyed with
  | nil =>
    simp only [keyEntries] at h
    injection h with h
    subst h
    exact ⟨rfl, by intro x hx; cases hx⟩
  | cons t ts ih =>
    simp only [keyEntries, bind, Option.bind_eq_some, Option.pure_def,
      Option.some.injEq] at h
    obtain ⟨d, hd, rest, hrest, hk⟩ := h
    obtain ⟨ihm, ihs⟩ := ih rest hrest
    subst hk
    constructor
    · simp only [List.map_cons, ihm]
    · intro x hx
      rcases List.mem_cons.mp hx with rfl | hx'
      · exact hd
      · exact ihs x hx'

/-- C3: when aggregation completes, the merged ledger is sorted by parsed
date in non-increasing order (any two entries, in order of occurrence, have
non-increasing dates), and for each date value the entries carrying it
appear exactly as they do in the concatenation of the input statement
sequences (Discover groups first, then bank, matching the code's append
order): the sort is stable and uses no secondary key. -/
theorem aggregate_sorted_stable (discover bank : Option (List (List Tx)))
    (out : List Tx)
    (h : aggregateEntries discover bank = some out) :
    out.Pairwise (fun a b => ∀ da db, parseDate a.date = some da →
      parseDate b.date = some db → db ≤ da) ∧
    (∀ d : Nat, out.filter (fun t => parseDate t.date == some d) =
      ((discover.getD []).flatten ++ (bank.getD []).flatten).filter
        (fun t => parseDate t.date == some d)) := by
  simp only [aggregateEntries, bind, Option.bind_eq_some, Option.pure_def,
    Option.some.injEq] at h
  obtain ⟨keyed, hk, hout⟩ := h
  obtain ⟨hmap, hinv⟩ := keyEntries_spec _ _ hk
  subst hout
  have hmemsort : ∀ x ∈ sortDesc keyed, parseDate x.2.date = some x.1 :=
    fun x hx => hinv x ((sortDesc_perm keyed).mem_iff.mp hx)
  constructor
  · rw [List.pairwise_map]
    refine (sortDesc_sorted keyed).imp_of_mem ?_
    intro x y hx hy hR da db hda hdb
    have hxk := hmemsort x hx
    have hyk := hmemsort y hy
    rw [hxk] at hda
    rw [hyk] at hdb
    injection hda with hda
    injection hdb with hdb
    rw [← hda, ← hdb]
    exact hR
  · intro d
    rw [List.filter_map]
    have hc1 : (sortDesc keyed).filter
        ((fun t => parseDate t.date == some d) ∘ Prod.snd) =
        (sortDesc keyed).filter (fun x => x.1 == d) := by
      refine List.filter_congr ?_
      intro x hx
      show (parseDate x.2.date == some d) = (x.1 == d)
      rw [hmemsort x hx]
      rfl
    have hc2 : keyed.filter (fun x => x.1 == d) =
        keyed.filter ((fun t => parseDate t.date == some d) ∘ Prod.snd) := by
      refine List.filter_congr ?_
      intro x hx
      show (x.1 == d) = (parseDate x.2.date == some d)
      rw [hinv x hx]
      rfl
    rw [hc1, sortDesc_stable, hc2, ← List.filter_map, hmap]

/-- Witness for C3: a one-entry Discover group and a later-dated one-entry
bank group aggregate to the bank entry first (dates descending). -/
theorem aggregate_sorted_stable_witness :
    ([⟨"01/07/2024", "b1", 2, "Y"⟩, ⟨"01/05/2024", "d1", 1, "X"⟩] :
        List Tx).Pairwise
      (fun a b => ∀ da db, parseDate a.date = some da →
        parseDate b.date = some db → db ≤ da) ∧
    (∀ d : Nat,
      ([⟨"01/07/2024", "b1", 2, "Y"⟩, ⟨"01/05/2024", "d1", 1, "X"⟩] :
          List Tx).filter (fun t => parseDate t.date == some d) =
      (((some [[⟨"01/05/2024", "d1", 1, "X"⟩]] :
          Option (List (List Tx))).getD []).flatten ++
       ((some [[⟨"01/07/2024", "b1", 2, "Y"⟩]] :
          Option (List (List Tx))).getD []).flatten).filter
        (fun t => parseDate t.date == some d)) :=
  aggregate_sorted_stable (some [[⟨"01/05/2024", "d1", 1, "X"⟩]])
    (some [[⟨"01/07/2024", "b1", 2, "Y"⟩]])
    [⟨"01/07/2024", "b1", 2, "Y"⟩, ⟨"01/05/2024", "d1", 1, "X"⟩] (by decide)
